import Mathlib

/-!
# Verification of `load_tester.py`

A shallow embedding of the load-testing tool in `src/load_tester.py` and
proofs about its behaviour.

Modelling conventions:
* Wall-clock times, intervals and derived statistics are rationals (`ℚ`).
  The Python code uses floats; the claims under verification are about
  which quantities are computed and printed, not about rounding.
* A Python `dict` built by repeated insert-or-increment is modelled as an
  insertion-ordered association list (`List (key × Nat)`), matching the
  CPython guarantee that iteration order is insertion order.
* The outcome of one `requests.get` call is an environment value
  (`HttpResult`): either a response (status code + elapsed time) or an
  exception carrying a message.  This is the external HTTP capability.
* Printing is modelled as producing a list of structured `ReportLine`
  values in the order the Python code prints them; numeric string
  formatting is not modelled.  The standard-deviation line carries the
  sample variance (the printed value is its square root).
* Concurrency: task submission order is `0, 1, ..., n-1` as in the code;
  the order in which worker tasks complete (and hence record) is an
  arbitrary permutation of the submitted ids, passed as a parameter.
-/

/-- Result of one `requests.get(url, timeout=10)` call, provided by the
environment: either an HTTP response or a raised exception. -/
inductive HttpResult where
  | response (status_code : Nat) (elapsed : ℚ)
  | exc (msg : String)
deriving DecidableEq, Repr

/-- The dict returned by `LoadTester.send_request` (lines 53-65):
`{'id', 'status_code', 'response_time', 'success': True}` on success,
`{'id', 'error', 'success': False}` on failure. -/
inductive RequestRecord where
  | success (id : Nat) (status_code : Nat) (response_time : ℚ)
  | failure (id : Nat) (error : String)
deriving DecidableEq, Repr

/-- Mutable state of a `LoadTester` instance (constructor, lines 26-35).
`start_time`/`end_time` are `none` until `run` sets them. -/
structure LoadTester where
  url : String
  num_threads : Nat
  num_requests : Nat
  interval : ℚ
  response_times : List ℚ
  status_codes : List (Nat × Nat)
  errors : List String
  start_time : Option ℚ
  end_time : Option ℚ
deriving DecidableEq, Repr

/-- `LoadTester.__init__` with empty collections and unset timestamps. -/
def LoadTester.init (url : String) (num_threads num_requests : Nat)
    (interval : ℚ) : LoadTester :=
  { url := url, num_threads := num_threads, num_requests := num_requests,
    interval := interval, response_times := [], status_codes := [],
    errors := [], start_time := none, end_time := none }

/-- The insert-or-increment on a dict modelled as an assoc list:
`if k in d: d[k] += 1 else: d[k] = 1` (lines 48-51 for status codes,
lines 126-129 for error messages).  A fresh key is appended at the end,
matching dict insertion order. -/
def bumpCount {α : Type} [DecidableEq α] (k : α) :
    List (α × Nat) → List (α × Nat)
  | [] => [(k, 1)]
  | (k', c) :: rest =>
      if k' = k then (k', c + 1) :: rest else (k', c) :: bumpCount k rest

/-- `LoadTester.send_request` (lines 37-65).  The `try` body runs when the
environment yields a response: the elapsed time is appended to
`response_times` and the status-code count is bumped.  Any exception is
caught by the `except` clause: its message is appended to `errors`.  In
both cases a record is returned; no exception propagates. -/
def send_request (t : LoadTester) (request_id : Nat) (h : HttpResult) :
    LoadTester × RequestRecord :=
  match h with
  | .response status_code elapsed =>
      ({ t with
          response_times := t.response_times ++ [elapsed],
          status_codes := bumpCount status_code t.status_codes },
       .success request_id status_code elapsed)
  | .exc msg =>
      ({ t with errors := t.errors ++ [msg] },
       .failure request_id msg)

/-! ## Statistics helpers (Python `min`, `max`, `statistics.*`) -/

/-- Python `min(l)` on a nonempty list; `0` on the empty list, which
`print_results` never passes (guarded at line 95). -/
def listMin : List ℚ → ℚ
  | [] => 0
  | x :: xs => xs.foldl min x

/-- Python `max(l)` on a nonempty list; `0` on the empty list. -/
def listMax : List ℚ → ℚ
  | [] => 0
  | x :: xs => xs.foldl max x

/-- `statistics.mean`: arithmetic mean. -/
def listMean (l : List ℚ) : ℚ := l.sum / l.length

/-- Stable insertion step: insert `x` into a list sorted ascending,
after strictly smaller elements and before the rest. -/
def insertAscQ (x : ℚ) : List ℚ → List ℚ
  | [] => [x]
  | y :: ys => if y < x then y :: insertAscQ x ys else x :: y :: ys

/-- Ascending sort of rationals (used for the median, which sorts). -/
def sortAscQ (l : List ℚ) : List ℚ := l.foldr insertAscQ []

/-- `statistics.median`: middle of the sorted list for odd length, mean of
the two middles for even length. -/
def listMedian (l : List ℚ) : ℚ :=
  let s := sortAscQ l
  let n := s.length
  if n % 2 = 1 then s.getD (n / 2) 0
  else (s.getD (n / 2 - 1) 0 + s.getD (n / 2) 0) / 2

/-- Sample variance `Σ (x - mean)² / (n - 1)`; the printed
`statistics.stdev` is its square root. -/
def sampleVariance (l : List ℚ) : ℚ :=
  (l.map (fun x => (x - listMean l) ^ 2)).sum / ((l.length : ℚ) - 1)

/-! ## Sorting of histogram entries

Python's `sorted` is a stable sort.  `sorted(d.items())` (line 119)
compares pairs lexicographically, which for distinct keys is ascending
key order.  `sorted(d.items(), key=lambda x: x[1], reverse=True)`
(line 131) is a stable descending sort on the count: entries with equal
counts keep their relative order, which for a dict's `items()` is key
insertion order. -/

/-- Stable ascending insertion by key. -/
def insertByKeyAsc (p : Nat × Nat) : List (Nat × Nat) → List (Nat × Nat)
  | [] => [p]
  | q :: qs => if q.1 < p.1 then q :: insertByKeyAsc p qs else p :: q :: qs

/-- `sorted(d.items())` for a dict with `Nat` keys and distinct keys. -/
def sortByKeyAsc (l : List (Nat × Nat)) : List (Nat × Nat) :=
  l.foldr insertByKeyAsc []

/-- Stable descending insertion by count: `p` is placed after entries
with strictly larger count and before all others (so before ties, which
keeps earlier-listed entries earlier — stability). -/
def insertByCountDesc {α : Type} (p : α × Nat) :
    List (α × Nat) → List (α × Nat)
  | [] => [p]
  | q :: qs => if p.2 < q.2 then q :: insertByCountDesc p qs else p :: q :: qs

/-- `sorted(l, key=lambda x: x[1], reverse=True)`: stable descending sort
on the count component. -/
def sortByCountDesc {α : Type} (l : List (α × Nat)) : List (α × Nat) :=
  l.foldr insertByCountDesc []

/-- The `error_counts` dict built at lines 124-129: fold the error list
through insert-or-increment, giving first-occurrence key order. -/
def errorCounts (errors : List String) : List (String × Nat) :=
  errors.foldl (fun acc e => bumpCount e acc) []

/-! ## The report -/

/-- One line of `print_results` output, in structural form. -/
inductive ReportLine where
  | noSuccess
  | header
  | duration (seconds : ℚ)
  | requestsPerSecond (value : ℚ)
  | totalRequests (n : Nat)
  | successfulRequests (n : Nat)
  | failedRequests (n : Nat)
  | statsHeader
  | minLine (v : ℚ)
  | maxLine (v : ℚ)
  | meanLine (v : ℚ)
  | medianLine (v : ℚ)
  | stdevLine (variance : ℚ)
  | statusHeader
  | statusLine (code count : Nat) (percent : ℚ)
  | errorHeader (total : Nat)
  | errorLine (msg : String) (count : Nat)
deriving DecidableEq, Repr

/-- `LoadTester.print_results` (lines 93-132) as the list of lines it
prints.  Timestamps are read with default `0`; the method is only called
after `run` has set both.  The inner `if self.response_times:` at line
109 and the `if self.errors:` at line 122 are kept as in the source. -/
def print_results (t : LoadTester) : List ReportLine :=
  if t.response_times = [] then [.noSuccess]
  else
    let duration := t.end_time.getD 0 - t.start_time.getD 0
    let requests_per_second := (t.num_requests : ℚ) / duration
    [.header, .duration duration, .requestsPerSecond requests_per_second,
     .totalRequests t.num_requests,
     .successfulRequests t.response_times.length,
     .failedRequests t.errors.length]
    ++ (if t.response_times = [] then []
        else
          [.statsHeader, .minLine (listMin t.response_times),
           .maxLine (listMax t.response_times),
           .meanLine (listMean t.response_times),
           .medianLine (listMedian t.response_times)]
          ++ (if 1 < t.response_times.length
              then [.stdevLine (sampleVariance t.response_times)] else []))
    ++ .statusHeader
       :: (sortByKeyAsc t.status_codes).map
            (fun p => .statusLine p.1 p.2 ((p.2 : ℚ) / t.num_requests * 100))
    ++ (if t.errors = [] then []
        else
          .errorHeader t.errors.length
            :: (sortByCountDesc (errorCounts t.errors)).map
                 (fun p => .errorLine p.1 p.2))

/-! ## The dispatch loop (`LoadTester.run`, lines 67-91) -/

/-- Observable actions of the dispatch loop: submitting the task for one
request id, `time.sleep(interval)`, and writing the
`Progress: submitted/total` line. -/
inductive Event where
  | submit (id : Nat)
  | sleep (seconds : ℚ)
  | progress (submitted total : Nat)
deriving DecidableEq, Repr

/-- The body of `for i in range(self.num_requests)` (lines 77-84), from
iteration `i` on: submit request `i`, sleep `interval`, and print
progress when `(i + 1) % 10 == 0 or i + 1 == num_requests`. -/
def submitEventsFrom (n : Nat) (interval : ℚ) (i : Nat) : List Event :=
  if i < n then
    [Event.submit i, Event.sleep interval]
      ++ (if (i + 1) % 10 = 0 ∨ i + 1 = n
          then [Event.progress (i + 1) n] else [])
      ++ submitEventsFrom n interval (i + 1)
  else []
termination_by n - i

/-- The full event trace of the dispatch loop. -/
def submitEvents (n : Nat) (interval : ℚ) : List Event :=
  submitEventsFrom n interval 0

/-- One iteration of the dispatch loop as a closed-form block of events:
submit request `j`, sleep, and the progress line exactly when
`(j + 1) % 10 == 0 or j + 1 == n`.  `submitEvents` is proved equal to the
concatenation of these blocks. -/
def dispatchBlock (n : Nat) (interval : ℚ) (j : Nat) : List Event :=
  [Event.submit j, Event.sleep interval]
    ++ (if (j + 1) % 10 = 0 ∨ j + 1 = n
        then [Event.progress (j + 1) n] else [])

/-- The effect of the submitted tasks on the shared state: each id in
`order` runs `send_request` once against the environment's result for
that id.  `order` is the completion order; a run that completes every
submitted task has `order` a permutation of `range num_requests`. -/
def runTasks (t : LoadTester) (env : Nat → HttpResult)
    (order : List Nat) : LoadTester :=
  order.foldl (fun s i => (send_request s i (env i)).1) t

/-- Everything `run` produces: the loop's event trace, the state after
the `concurrent.futures.wait` barrier, and the printed report. -/
structure RunOutput where
  trace : List Event
  final : LoadTester
  report : List ReportLine

/-- `LoadTester.run` (lines 67-91): record `start_time`, submit one task
per id pacing with `interval`, wait for all tasks (their recordings
interleave in completion order `order`), record `end_time`, and print
the results.  `startT`/`endT` are the wall-clock readings of the two
`datetime.now()` calls. -/
def run (t : LoadTester) (env : Nat → HttpResult) (order : List Nat)
    (startT endT : ℚ) : RunOutput :=
  let afterWait :=
    { runTasks { t with start_time := some startT } env order with
        end_time := some endT }
  { trace := submitEvents t.num_requests t.interval,
    final := afterWait,
    report := print_results afterWait }

/-! ## Observables and derived notions -/

/-- Whether a record has `'success': True`. -/
def RequestRecord.isSuccess : RequestRecord → Bool
  | .success _ _ _ => true
  | .failure _ _ => false

/-- Total number of recorded outcomes: successes (`response_times`
entries) plus failures (`errors` entries). -/
def totalOutcomes (t : LoadTester) : Nat :=
  t.response_times.length + t.errors.length

/-- `d.get(k, 0)` on an assoc-list dict: the count stored under `k`. -/
def lookCount {α : Type} [DecidableEq α] (k : α) : List (α × Nat) → Nat
  | [] => 0
  | (k', c) :: rest => if k' = k then c else lookCount k rest

/-- `sum(d.values())` on an assoc-list dict. -/
def sumCounts {α : Type} (l : List (α × Nat)) : Nat :=
  (l.map Prod.snd).sum

/-- Folding a sequence of keys through insert-or-increment, starting from
the dict `m`. -/
def countsFold {α : Type} [DecidableEq α] (m : List (α × Nat))
    (ks : List α) : List (α × Nat) :=
  ks.foldl (fun acc k => bumpCount k acc) m

/-- Status codes of the requests in `order` that the environment answers
with a response, in order. -/
def successCodes (env : Nat → HttpResult) (order : List Nat) : List Nat :=
  order.filterMap fun i =>
    match env i with
    | .response c _ => some c
    | .exc _ => none

/-- Elapsed times of the requests in `order` that the environment answers
with a response, in order. -/
def successTimes (env : Nat → HttpResult) (order : List Nat) : List ℚ :=
  order.filterMap fun i =>
    match env i with
    | .response _ e => some e
    | .exc _ => none

/-- Exception messages of the requests in `order` that the environment
answers with an exception, in order. -/
def failMsgs (env : Nat → HttpResult) (order : List Nat) : List String :=
  order.filterMap fun i =>
    match env i with
    | .response _ _ => none
    | .exc m => some m

/-- The values of the `Requests Per Second:` lines of a report. -/
def rpsValues (ls : List ReportLine) : List ℚ :=
  ls.filterMap fun l =>
    match l with
    | .requestsPerSecond v => some v
    | _ => none

/-- The `(code, count, percent)` triples of the status-distribution lines
of a report, in print order. -/
def statusLines (ls : List ReportLine) : List (Nat × Nat × ℚ) :=
  ls.filterMap fun l =>
    match l with
    | .statusLine code count percent => some (code, count, percent)
    | _ => none

/-- The `(message, count)` pairs of the error-distribution lines of a
report, in print order. -/
def errorLines (ls : List ReportLine) : List (String × Nat) :=
  ls.filterMap fun l =>
    match l with
    | .errorLine msg count => some (msg, count)
    | _ => none

/-- The ids of the `submit` events of a trace, in order. -/
def submitIds (es : List Event) : List Nat :=
  es.filterMap fun e =>
    match e with
    | .submit id => some id
    | _ => none

/-- The `(submitted, total)` pairs of the progress events of a trace. -/
def progressMarks (es : List Event) : List (Nat × Nat) :=
  es.filterMap fun e =>
    match e with
    | .progress s t => some (s, t)
    | _ => none

/-- A concrete post-run state with two successes, used by witnesses. -/
def twoSampleState : LoadTester :=
  { LoadTester.init "u" 5 2 0 with
      response_times := [1, 3]
      status_codes := [(200, 2)]
      start_time := some 0
      end_time := some 1 }

/-- A concrete environment for witnesses: request 1 raises, request 0
gets a 200 and request 2 a 404. -/
def mixedEnv : Nat → HttpResult := fun i =>
  if i = 1 then .exc "boom"
  else if i = 0 then .response 200 1 else .response 404 2

/-- A concrete post-run state whose two error messages are tied on count
and listed in first-occurrence order `"b"` before `"a"`. -/
def tiedErrorsState : LoadTester :=
  { LoadTester.init "u" 5 3 0 with
      response_times := [1]
      status_codes := [(200, 1)]
      errors := ["b", "a"]
      start_time := some 0
      end_time := some 4 }

/-! ## Basic lemmas about `send_request` and `runTasks` -/

theorem send_request_config (t : LoadTester) (id : Nat) (h : HttpResult) :
    (send_request t id h).1.url = t.url
    ∧ (send_request t id h).1.num_threads = t.num_threads
    ∧ (send_request t id h).1.num_requests = t.num_requests
    ∧ (send_request t id h).1.interval = t.interval
    ∧ (send_request t id h).1.start_time = t.start_time
    ∧ (send_request t id h).1.end_time = t.end_time := by
  cases h <;> exact ⟨rfl, rfl, rfl, rfl, rfl, rfl⟩

theorem runTasks_cons (t : LoadTester) (env : Nat → HttpResult)
    (i : Nat) (order : List Nat) :
    runTasks t env (i :: order) =
      runTasks (send_request t i (env i)).1 env order := rfl

theorem runTasks_nil (t : LoadTester) (env : Nat → HttpResult) :
    runTasks t env [] = t := rfl

theorem runTasks_num_requests (env : Nat → HttpResult) (order : List Nat)
    (t : LoadTester) :
    (runTasks t env order).num_requests = t.num_requests := by
  induction order generalizing t with
  | nil => rfl
  | cons i rest ih =>
      rw [runTasks_cons, ih, (send_request_config t i (env i)).2.2.1]

theorem runTasks_start_time (env : Nat → HttpResult) (order : List Nat)
    (t : LoadTester) :
    (runTasks t env order).start_time = t.start_time := by
  induction order generalizing t with
  | nil => rfl
  | cons i rest ih =>
      rw [runTasks_cons, ih, (send_request_config t i (env i)).2.2.2.2.1]

theorem runTasks_response_times (env : Nat → HttpResult) (order : List Nat)
    (t : LoadTester) :
    (runTasks t env order).response_times =
      t.response_times ++ successTimes env order := by
  induction order generalizing t with
  | nil => simp [runTasks_nil, successTimes]
  | cons i rest ih =>
      rw [runTasks_cons, ih]
      cases hi : env i <;>
        simp [send_request, hi, successTimes, List.filterMap_cons]

theorem runTasks_errors (env : Nat → HttpResult) (order : List Nat)
    (t : LoadTester) :
    (runTasks t env order).errors = t.errors ++ failMsgs env order := by
  induction order generalizing t with
  | nil => simp [runTasks_nil, failMsgs]
  | cons i rest ih =>
      rw [runTasks_cons, ih]
      cases hi : env i <;>
        simp [send_request, hi, failMsgs, List.filterMap_cons]

theorem runTasks_status_codes (env : Nat → HttpResult) (order : List Nat)
    (t : LoadTester) :
    (runTasks t env order).status_codes =
      countsFold t.status_codes (successCodes env order) := by
  induction order generalizing t with
  | nil => rfl
  | cons i rest ih =>
      rw [runTasks_cons, ih]
      cases hi : env i <;>
        simp [send_request, hi, successCodes, countsFold, List.filterMap_cons]

/-! ## Lemmas about the insert-or-increment dict -/

theorem lookCount_bumpCount {α : Type} [DecidableEq α] (k k' : α)
    (l : List (α × Nat)) :
    lookCount k (bumpCount k' l) =
      if k' = k then lookCount k l + 1 else lookCount k l := by
  induction l with
  | nil => by_cases h : k' = k <;> simp [bumpCount, lookCount, h]
  | cons p rest ih =>
      obtain ⟨a, c⟩ := p
      by_cases hak : a = k'
      · subst hak
        by_cases h : a = k <;> simp [bumpCount, lookCount, h]
      · by_cases h : a = k
        · subst h
          have hk'a : ¬ a = k' := hak
          have hne : ¬ k' = a := fun he => hak he.symm
          simp [bumpCount, lookCount, hk'a, hne]
        · simp [bumpCount, lookCount, hak, h, ih]

theorem sumCounts_bumpCount {α : Type} [DecidableEq α] (k : α)
    (l : List (α × Nat)) :
    sumCounts (bumpCount k l) = sumCounts l + 1 := by
  induction l with
  | nil => rfl
  | cons p rest ih =>
      obtain ⟨a, c⟩ := p
      simp only [sumCounts, List.map_cons, List.sum_cons] at ih ⊢
      by_cases h : a = k
      · simp only [bumpCount, if_pos h, List.map_cons, List.sum_cons]
        omega
      · simp only [bumpCount, if_neg h, List.map_cons, List.sum_cons, ih]
        omega

theorem keys_bumpCount {α : Type} [DecidableEq α] (k : α)
    (l : List (α × Nat)) :
    (bumpCount k l).map Prod.fst =
      if k ∈ l.map Prod.fst then l.map Prod.fst
      else l.map Prod.fst ++ [k] := by
  induction l with
  | nil => simp [bumpCount]
  | cons p rest ih =>
      obtain ⟨a, c⟩ := p
      by_cases h : a = k
      · subst h; simp [bumpCount]
      · have hk : ¬ k = a := fun he => h he.symm
        by_cases hmem : k ∈ rest.map Prod.fst <;>
          simp [bumpCount, h, hk, hmem, ih]

theorem keys_nodup_bumpCount {α : Type} [DecidableEq α] (k : α)
    (l : List (α × Nat)) (hl : (l.map Prod.fst).Nodup) :
    ((bumpCount k l).map Prod.fst).Nodup := by
  rw [keys_bumpCount]
  by_cases hmem : k ∈ l.map Prod.fst
  · simpa [hmem] using hl
  · rw [if_neg hmem, List.nodup_append]
    refine ⟨hl, List.nodup_singleton k, ?_⟩
    intro a ha hak
    rw [List.mem_singleton] at hak
    subst hak
    exact hmem ha

theorem vals_pos_bumpCount {α : Type} [DecidableEq α] (k : α)
    (l : List (α × Nat)) (hl : ∀ p ∈ l, 0 < p.2) :
    ∀ p ∈ bumpCount k l, 0 < p.2 := by
  induction l with
  | nil =>
      intro p hp
      simp [bumpCount] at hp
      subst hp
      simp
  | cons q rest ih =>
      obtain ⟨a, c⟩ := q
      by_cases h : a = k
      · subst h
        intro p hp
        have hp2 : p = (a, c + 1) ∨ p ∈ rest := by
          simpa [bumpCount] using hp
        rcases hp2 with rfl | hp2
        · simp
        · exact hl p (List.mem_cons_of_mem _ hp2)
      · intro p hp
        simp only [bumpCount, if_neg h, List.mem_cons] at hp
        rcases hp with rfl | hp
        · exact hl (a, c) (List.mem_cons_self _ _)
        · exact ih (fun q hq => hl q (List.mem_cons_of_mem _ hq)) p hp

theorem mem_of_nodup_keys {α : Type} [DecidableEq α]
    (l : List (α × Nat)) (hl : (l.map Prod.fst).Nodup) (k : α) :
    ∀ c, (k, c) ∈ l ↔ k ∈ l.map Prod.fst ∧ c = lookCount k l := by
  induction l with
  | nil => simp [lookCount]
  | cons p rest ih =>
      intro c
      obtain ⟨a, b⟩ := p
      simp only [List.map_cons, List.nodup_cons] at hl
      have ihr := ih hl.2
      by_cases h : a = k
      · subst h
        constructor
        · intro hmem
          rcases List.mem_cons.mp hmem with he | hmem
          · have hcb : c = b := congrArg Prod.snd he
            subst hcb
            simp [lookCount]
          · exact absurd (List.mem_map_of_mem Prod.fst hmem) hl.1
        · rintro ⟨-, rfl⟩
          simp [lookCount]
      · constructor
        · intro hmem
          rcases List.mem_cons.mp hmem with he | hmem
          · exact absurd (congrArg Prod.fst he).symm h
          · obtain ⟨hk1, hk2⟩ := (ihr c).mp hmem
            refine ⟨?_, ?_⟩
            · simp only [List.map_cons, List.mem_cons]
              exact Or.inr hk1
            · simpa [lookCount, h] using hk2
        · rintro ⟨hmem, rfl⟩
          rw [List.map_cons] at hmem
          have hk1 : k ∈ rest.map Prod.fst := by
            rcases List.mem_cons.mp hmem with he | hm
            · exact absurd he.symm h
            · exact hm
          have hkl : lookCount k ((a, b) :: rest) = lookCount k rest := by
            simp [lookCount, h]
          rw [hkl]
          exact List.mem_cons_of_mem _ ((ihr (lookCount k rest)).mpr ⟨hk1, rfl⟩)

theorem countsFold_nil {α : Type} [DecidableEq α] (m : List (α × Nat)) :
    countsFold m [] = m := rfl

theorem countsFold_cons {α : Type} [DecidableEq α] (m : List (α × Nat))
    (k : α) (ks : List α) :
    countsFold m (k :: ks) = countsFold (bumpCount k m) ks := rfl

theorem lookCount_countsFold {α : Type} [DecidableEq α] (k : α)
    (ks : List α) : ∀ m : List (α × Nat),
    lookCount k (countsFold m ks) = lookCount k m + ks.count k := by
  induction ks with
  | nil => intro m; simp [countsFold_nil]
  | cons k' ks ih =>
      intro m
      rw [countsFold_cons, ih, lookCount_bumpCount]
      by_cases h : k' = k
      · subst h
        simp [List.count_cons]
        omega
      · simp [List.count_cons, h]

theorem sumCounts_countsFold {α : Type} [DecidableEq α]
    (ks : List α) : ∀ m : List (α × Nat),
    sumCounts (countsFold m ks) = sumCounts m + ks.length := by
  induction ks with
  | nil => intro m; simp [countsFold_nil]
  | cons k' ks ih =>
      intro m
      rw [countsFold_cons, ih, sumCounts_bumpCount, List.length_cons]
      omega

theorem keys_nodup_countsFold {α : Type} [DecidableEq α]
    (ks : List α) : ∀ m : List (α × Nat), (m.map Prod.fst).Nodup →
    ((countsFold m ks).map Prod.fst).Nodup := by
  induction ks with
  | nil => intro m hm; simpa [countsFold_nil] using hm
  | cons k' ks ih =>
      intro m hm
      rw [countsFold_cons]
      exact ih _ (keys_nodup_bumpCount k' m hm)

theorem keys_mem_countsFold {α : Type} [DecidableEq α] (a : α)
    (ks : List α) : ∀ m : List (α × Nat),
    (a ∈ (countsFold m ks).map Prod.fst ↔ a ∈ m.map Prod.fst ∨ a ∈ ks) := by
  induction ks with
  | nil => intro m; simp [countsFold_nil]
  | cons k' ks ih =>
      intro m
      rw [countsFold_cons, ih]
      rw [keys_bumpCount]
      by_cases hmem : k' ∈ m.map Prod.fst
      · simp only [if_pos hmem, List.mem_cons]
        constructor
        · rintro (h | h)
          · exact Or.inl h
          · exact Or.inr (Or.inr h)
        · rintro (h | rfl | h)
          · exact Or.inl h
          · exact Or.inl hmem
          · exact Or.inr h
      · simp only [if_neg hmem, List.mem_append, List.mem_singleton,
          List.mem_cons]
        tauto

theorem vals_pos_countsFold {α : Type} [DecidableEq α]
    (ks : List α) : ∀ m : List (α × Nat), (∀ p ∈ m, 0 < p.2) →
    ∀ p ∈ countsFold m ks, 0 < p.2 := by
  induction ks with
  | nil => intro m hm; simpa [countsFold_nil] using hm
  | cons k' ks ih =>
      intro m hm
      rw [countsFold_cons]
      exact ih _ (vals_pos_bumpCount k' m hm)

/-! ## Lemmas about `run` and the report -/

theorem run_report (t : LoadTester) (env : Nat → HttpResult)
    (order : List Nat) (startT endT : ℚ) :
    (run t env order startT endT).report =
      print_results (run t env order startT endT).final := rfl

theorem run_final_response_times (t : LoadTester) (env : Nat → HttpResult)
    (order : List Nat) (startT endT : ℚ) :
    (run t env order startT endT).final.response_times =
      t.response_times ++ successTimes env order := by
  show (runTasks { t with start_time := some startT } env order).response_times
      = _
  rw [runTasks_response_times]

theorem run_final_errors (t : LoadTester) (env : Nat → HttpResult)
    (order : List Nat) (startT endT : ℚ) :
    (run t env order startT endT).final.errors =
      t.errors ++ failMsgs env order := by
  show (runTasks { t with start_time := some startT } env order).errors = _
  rw [runTasks_errors]

theorem run_final_status_codes (t : LoadTester) (env : Nat → HttpResult)
    (order : List Nat) (startT endT : ℚ) :
    (run t env order startT endT).final.status_codes =
      countsFold t.status_codes (successCodes env order) := by
  show (runTasks { t with start_time := some startT } env order).status_codes
      = _
  rw [runTasks_status_codes]

theorem run_final_num_requests (t : LoadTester) (env : Nat → HttpResult)
    (order : List Nat) (startT endT : ℚ) :
    (run t env order startT endT).final.num_requests = t.num_requests := by
  show (runTasks { t with start_time := some startT } env order).num_requests
      = _
  rw [runTasks_num_requests]

theorem run_final_start_time (t : LoadTester) (env : Nat → HttpResult)
    (order : List Nat) (startT endT : ℚ) :
    (run t env order startT endT).final.start_time = some startT := by
  show (runTasks { t with start_time := some startT } env order).start_time
      = _
  rw [runTasks_start_time]

theorem run_final_end_time (t : LoadTester) (env : Nat → HttpResult)
    (order : List Nat) (startT endT : ℚ) :
    (run t env order startT endT).final.end_time = some endT := rfl

theorem successTimes_length_add_failMsgs_length (env : Nat → HttpResult)
    (order : List Nat) :
    (successTimes env order).length + (failMsgs env order).length =
      order.length := by
  induction order with
  | nil => rfl
  | cons i rest ih =>
      cases hi : env i <;>
        simp [successTimes, failMsgs, List.filterMap_cons, hi] <;>
        simp [successTimes, failMsgs] at ih <;> omega

theorem successCodes_length_eq (env : Nat → HttpResult)
    (order : List Nat) :
    (successCodes env order).length = (successTimes env order).length := by
  induction order with
  | nil => rfl
  | cons i rest ih =>
      cases hi : env i <;>
        simp [successCodes, successTimes, List.filterMap_cons, hi] <;>
        simp [successCodes, successTimes] at ih <;> omega

theorem rpsValues_print_results (t : LoadTester)
    (h : t.response_times ≠ []) :
    rpsValues (print_results t) =
      [(t.num_requests : ℚ) / (t.end_time.getD 0 - t.start_time.getD 0)] := by
  unfold print_results rpsValues
  rw [if_neg h]
  split_ifs <;>
    simp [List.filterMap_append, List.filterMap_cons, List.filterMap_map,
      Function.comp]

theorem statusExtract_map_statusLine (g : Nat × Nat → ℚ)
    (L : List (Nat × Nat)) :
    List.filterMap (fun l => match l with
      | ReportLine.statusLine code count percent => some (code, count, percent)
      | _ => none) (L.map (fun p => ReportLine.statusLine p.1 p.2 (g p)))
    = L.map (fun p => (p.1, p.2, g p)) := by
  induction L with
  | nil => rfl
  | cons p rest ih => simp only [List.map_cons, List.filterMap_cons, ih]

theorem statusExtract_map_errorLine (L : List (String × Nat)) :
    List.filterMap (fun l => match l with
      | ReportLine.statusLine code count percent => some (code, count, percent)
      | _ => none) (L.map (fun p => ReportLine.errorLine p.1 p.2))
    = ([] : List (Nat × Nat × ℚ)) := by
  induction L with
  | nil => rfl
  | cons p rest ih => simp only [List.map_cons, List.filterMap_cons, ih]

theorem errExtract_map_statusLine (g : Nat × Nat → ℚ)
    (L : List (Nat × Nat)) :
    List.filterMap (fun l => match l with
      | ReportLine.errorLine msg count => some (msg, count)
      | _ => none) (L.map (fun p => ReportLine.statusLine p.1 p.2 (g p)))
    = ([] : List (String × Nat)) := by
  induction L with
  | nil => rfl
  | cons p rest ih => simp only [List.map_cons, List.filterMap_cons, ih]

theorem errExtract_map_errorLine (L : List (String × Nat)) :
    List.filterMap (fun l => match l with
      | ReportLine.errorLine msg count => some (msg, count)
      | _ => none) (L.map (fun p => ReportLine.errorLine p.1 p.2)) = L := by
  induction L with
  | nil => rfl
  | cons p rest ih => simp only [List.map_cons, List.filterMap_cons, ih]

theorem statusLines_print_results (t : LoadTester)
    (h : t.response_times ≠ []) :
    statusLines (print_results t) =
      (sortByKeyAsc t.status_codes).map
        (fun p => (p.1, p.2, (p.2 : ℚ) / t.num_requests * 100)) := by
  unfold print_results statusLines
  rw [if_neg h]
  split_ifs <;>
    simp only [List.filterMap_append, List.filterMap_cons,
      List.filterMap_nil, List.append_nil, List.nil_append,
      List.append_assoc, List.cons_append, statusExtract_map_statusLine,
      statusExtract_map_errorLine]

theorem errorLines_print_results (t : LoadTester)
    (h : t.response_times ≠ []) :
    errorLines (print_results t) = sortByCountDesc (errorCounts t.errors) := by
  unfold print_results errorLines
  rw [if_neg h]
  split_ifs with h1 h2 h3 <;>
    simp_all only [List.filterMap_append, List.filterMap_cons,
      List.filterMap_nil, List.append_nil, List.nil_append,
      List.append_assoc, List.cons_append, errExtract_map_statusLine,
      errExtract_map_errorLine, errorCounts, List.foldl_nil,
      sortByCountDesc, List.foldr_nil]

/-! ## Claims -/

/-- C3: `send_request` classifies an attempt as a success exactly when the
HTTP client returns a response — regardless of status code — appending its
elapsed time and bumping its status-code count; every exception is caught,
recorded as a textual failure entry, and never propagates (the function is
total and returns a record in both cases, leaving the other collections
untouched). -/
theorem C3_send_request_classification (t : LoadTester) (id : Nat)
    (h : HttpResult) :
    ((send_request t id h).2.isSuccess = true ↔
        ∃ code elapsed, h = .response code elapsed)
    ∧ (∀ code elapsed, h = .response code elapsed →
        (send_request t id h).1.response_times = t.response_times ++ [elapsed]
        ∧ lookCount code (send_request t id h).1.status_codes
            = lookCount code t.status_codes + 1
        ∧ (send_request t id h).1.errors = t.errors
        ∧ (send_request t id h).2 = .success id code elapsed)
    ∧ (∀ msg, h = .exc msg →
        (send_request t id h).1.errors = t.errors ++ [msg]
        ∧ (send_request t id h).1.response_times = t.response_times
        ∧ (send_request t id h).1.status_codes = t.status_codes
        ∧ (send_request t id h).2 = .failure id msg) := by
  cases h with
  | response c e =>
      refine ⟨by simp [send_request, RequestRecord.isSuccess], ?_, ?_⟩
      · intro code elapsed he
        injection he with h1 h2
        subst h1
        subst h2
        refine ⟨rfl, ?_, rfl, rfl⟩
        show lookCount c (bumpCount c t.status_codes) = _
        rw [lookCount_bumpCount]
        simp
      · intro msg he
        cases he
  | exc m =>
      refine ⟨by simp [send_request, RequestRecord.isSuccess], ?_, ?_⟩
      · intro code elapsed he
        cases he
      · intro msg he
        injection he with h1
        subst h1
        exact ⟨rfl, rfl, rfl, rfl⟩

/-- Witness for C3 at concrete inputs: a 404 response is recorded as a
success, an exception is recorded as an error entry. -/
theorem C3_send_request_classification_witness :
    (send_request (LoadTester.init "u" 5 3 0) 0
        (.response 404 2)).1.response_times = [2]
    ∧ (send_request (LoadTester.init "u" 5 3 0) 1
        (.exc "boom")).1.errors = ["boom"] := by
  have h1 := (C3_send_request_classification (LoadTester.init "u" 5 3 0) 0
      (.response 404 2)).2.1 404 2 rfl
  have h2 := (C3_send_request_classification (LoadTester.init "u" 5 3 0) 1
      (.exc "boom")).2.2 "boom" rfl
  exact ⟨by rw [h1.1]; rfl, by rw [h2.1]; rfl⟩

/-- C4: whenever the elapsed-time collection is empty the report is the
single line `No successful requests were made.`, with no statistics; in
particular this holds for every completed run with `num_requests = 0`. -/
theorem C4_empty_no_success_report :
    (∀ t : LoadTester, t.response_times = [] →
        print_results t = [ReportLine.noSuccess])
    ∧ ∀ (url : String) (num_threads : Nat) (interval : ℚ)
        (env : Nat → HttpResult) (order : List Nat) (startT endT : ℚ),
        order.Perm (List.range 0) →
        (run (LoadTester.init url num_threads 0 interval) env order
            startT endT).report = [ReportLine.noSuccess] := by
  have base : ∀ t : LoadTester, t.response_times = [] →
      print_results t = [ReportLine.noSuccess] := by
    intro t ht
    unfold print_results
    rw [if_pos ht]
  refine ⟨base, ?_⟩
  intro url num_threads interval env order startT endT hperm
  have horder : order = [] := by
    have : List.range 0 = [] := rfl
    rw [this] at hperm
    exact hperm.eq_nil
  subst horder
  rw [run_report]
  apply base
  rw [run_final_response_times]
  rfl

/-- Witness for C4: a state with errors but no successes, and a completed
zero-request run, both report only the no-success line. -/
theorem C4_empty_no_success_report_witness :
    print_results { LoadTester.init "u" 5 7 0 with errors := ["x"] }
        = [ReportLine.noSuccess]
    ∧ (run (LoadTester.init "u" 5 0 1) (fun _ => .exc "e") [] 0 3).report
        = [ReportLine.noSuccess] :=
  ⟨C4_empty_no_success_report.1 _ rfl,
   C4_empty_no_success_report.2 "u" 5 1 (fun _ => .exc "e") [] 0 3
     (List.Perm.refl _)⟩

/-- C5: for every completed run with at least one success, the report
contains exactly one throughput line, and its value is the configured
`num_requests` divided by the wall-clock duration `endT - startT`. -/
theorem C5_throughput (t : LoadTester) (env : Nat → HttpResult)
    (order : List Nat) (startT endT : ℚ)
    (hne : (run t env order startT endT).final.response_times ≠ []) :
    rpsValues (run t env order startT endT).report =
      [(t.num_requests : ℚ) / (endT - startT)] := by
  rw [run_report, rpsValues_print_results _ hne, run_final_num_requests,
    run_final_start_time, run_final_end_time]
  rfl

/-- Witness for C5: a concrete two-request run over three seconds reports
a throughput of 2/3. -/
theorem C5_throughput_witness :
    (run (LoadTester.init "u" 5 2 0) (fun _ => .response 200 1) [0, 1]
        4 7).final.response_times ≠ []
    ∧ rpsValues (run (LoadTester.init "u" 5 2 0)
        (fun _ => .response 200 1) [0, 1] 4 7).report = [2 / 3] := by
  have hne : (run (LoadTester.init "u" 5 2 0) (fun _ => .response 200 1)
      [0, 1] 4 7).final.response_times ≠ [] := by decide
  refine ⟨hne, ?_⟩
  have := C5_throughput (LoadTester.init "u" 5 2 0)
    (fun _ => .response 200 1) [0, 1] 4 7 hne
  rw [this]
  norm_num [LoadTester.init]

/-- C9: every report over a nonempty elapsed-time collection prints the
min, max, arithmetic mean and median of the recorded times, and prints
the standard-deviation line if and only if at least two samples exist. -/
theorem C9_latency_statistics (t : LoadTester)
    (h : t.response_times ≠ []) :
    ReportLine.minLine (listMin t.response_times) ∈ print_results t
    ∧ ReportLine.maxLine (listMax t.response_times) ∈ print_results t
    ∧ ReportLine.meanLine (listMean t.response_times) ∈ print_results t
    ∧ ReportLine.medianLine (listMedian t.response_times) ∈ print_results t
    ∧ ((∃ v, ReportLine.stdevLine v ∈ print_results t) ↔
        1 < t.response_times.length) := by
  unfold print_results
  rw [if_neg h, if_neg h]
  refine ⟨by simp, by simp, by simp, by simp, ?_⟩
  constructor
  · rintro ⟨v, hv⟩
    by_contra hlen
    rw [if_neg hlen] at hv
    simp [List.mem_append, List.mem_cons, List.mem_map] at hv
  · intro hlen
    rw [if_pos hlen]
    exact ⟨sampleVariance t.response_times, by simp⟩

/-- Witness for C9 at a concrete two-sample state. -/
theorem C9_latency_statistics_witness :
    ReportLine.minLine 1 ∈ print_results twoSampleState
    ∧ ∃ v, ReportLine.stdevLine v ∈ print_results twoSampleState := by
  have h := C9_latency_statistics twoSampleState (by decide)
  refine ⟨?_, h.2.2.2.2.mpr (by decide)⟩
  have hmin : listMin twoSampleState.response_times = 1 := by decide
  have h1 := h.1
  rw [hmin] at h1
  exact h1

/-- C10: each success increments exactly one status-code count and
appends exactly one elapsed time, so `send_request` preserves the
invariant that the status-code counts sum to the length of the
elapsed-time list; consequently the invariant holds after any completed
run from a fresh state, where the reported successful-request figure is
that length. -/
theorem C10_status_histogram_total :
    (∀ (t : LoadTester) (id : Nat) (h : HttpResult),
        sumCounts t.status_codes = t.response_times.length →
        sumCounts (send_request t id h).1.status_codes =
          (send_request t id h).1.response_times.length)
    ∧ ∀ (url : String) (num_threads num_requests : Nat) (interval : ℚ)
        (env : Nat → HttpResult) (order : List Nat) (startT endT : ℚ),
        sumCounts (run (LoadTester.init url num_threads num_requests
            interval) env order startT endT).final.status_codes =
          (run (LoadTester.init url num_threads num_requests interval)
            env order startT endT).final.response_times.length := by
  constructor
  · intro t id h hinv
    cases h with
    | response c e =>
        show sumCounts (bumpCount c t.status_codes)
            = (t.response_times ++ [e]).length
        rw [sumCounts_bumpCount, hinv, List.length_append,
          List.length_singleton]
    | exc m => exact hinv
  · intro url num_threads num_requests interval env order startT endT
    rw [run_final_status_codes, run_final_response_times,
      sumCounts_countsFold, successCodes_length_eq]
    show 0 + _ = _
    rw [List.length_append]
    rfl

/-- Witness for C10: the invariant propagates through one concrete
success, and holds after a concrete mixed run. -/
theorem C10_status_histogram_total_witness :
    sumCounts (send_request twoSampleState 2
        (.response 500 4)).1.status_codes =
      (send_request twoSampleState 2
        (.response 500 4)).1.response_times.length
    ∧ sumCounts (run (LoadTester.init "u" 2 3 0)
        (fun i => if i = 1 then .exc "e" else .response 200 1)
        [2, 0, 1] 0 5).final.status_codes =
      (run (LoadTester.init "u" 2 3 0)
        (fun i => if i = 1 then .exc "e" else .response 200 1)
        [2, 0, 1] 0 5).final.response_times.length :=
  ⟨C10_status_histogram_total.1 twoSampleState 2 (.response 500 4)
      (by decide),
   C10_status_histogram_total.2 "u" 2 3 0
      (fun i => if i = 1 then .exc "e" else .response 200 1) [2, 0, 1] 0 5⟩

/-- C1: every `send_request` call contributes exactly one outcome, and
after the wait barrier of a completed run (every submitted id completing
exactly once, in any order) the number of recorded successes plus the
number of recorded failures equals `num_requests`. -/
theorem C1_outcome_conservation :
    (∀ (t : LoadTester) (id : Nat) (h : HttpResult),
        totalOutcomes (send_request t id h).1 = totalOutcomes t + 1)
    ∧ ∀ (url : String) (num_threads num_requests : Nat) (interval : ℚ)
        (env : Nat → HttpResult) (order : List Nat) (startT endT : ℚ),
        order.Perm (List.range num_requests) →
        (run (LoadTester.init url num_threads num_requests interval)
            env order startT endT).final.response_times.length
          + (run (LoadTester.init url num_threads num_requests interval)
            env order startT endT).final.errors.length = num_requests := by
  constructor
  · intro t id h
    cases h with
    | response c e =>
        show (t.response_times ++ [e]).length + t.errors.length
            = t.response_times.length + t.errors.length + 1
        rw [List.length_append, List.length_singleton]
        omega
    | exc m =>
        show t.response_times.length + (t.errors ++ [m]).length
            = t.response_times.length + t.errors.length + 1
        rw [List.length_append, List.length_singleton]
        omega
  · intro url num_threads num_requests interval env order startT endT hperm
    rw [run_final_response_times, run_final_errors,
      List.length_append, List.length_append]
    have hlen : (successTimes env order).length
        + (failMsgs env order).length = order.length :=
      successTimes_length_add_failMsgs_length env order
    have hord : order.length = num_requests := by
      rw [hperm.length_eq, List.length_range]
    show 0 + (successTimes env order).length
        + (0 + (failMsgs env order).length) = num_requests
    omega

/-- Witness for C1: one concrete call adds one outcome, and a concrete
three-request run with one failure records 2 + 1 = 3 outcomes. -/
theorem C1_outcome_conservation_witness :
    totalOutcomes (send_request twoSampleState 2 (.exc "e")).1 = 3
    ∧ (run (LoadTester.init "u" 2 3 0)
        (fun i => if i = 1 then .exc "e" else .response 200 1)
        [2, 0, 1] 0 5).final.response_times.length
      + (run (LoadTester.init "u" 2 3 0)
        (fun i => if i = 1 then .exc "e" else .response 200 1)
        [2, 0, 1] 0 5).final.errors.length = 3 := by
  constructor
  · rw [C1_outcome_conservation.1 twoSampleState 2 (.exc "e")]
    decide
  · exact C1_outcome_conservation.2 "u" 2 3 0
      (fun i => if i = 1 then .exc "e" else .response 200 1) [2, 0, 1] 0 5
      (by decide)

/-! ## The dispatch trace in closed form -/

theorem submitEventsFrom_closed (n : Nat) (interval : ℚ) :
    ∀ k i, n - i = k →
    submitEventsFrom n interval i =
      (List.range' i k).flatMap (dispatchBlock n interval) := by
  intro k
  induction k with
  | zero =>
      intro i hi
      rw [submitEventsFrom, if_neg (by omega)]
      rfl
  | succ k ih =>
      intro i hi
      have hlt : i < n := by omega
      rw [submitEventsFrom, if_pos hlt, List.range'_succ,
        List.flatMap_cons, ih (i + 1) (by omega)]
      rfl

theorem submitEvents_closed (n : Nat) (interval : ℚ) :
    submitEvents n interval =
      (List.range n).flatMap (dispatchBlock n interval) := by
  rw [submitEvents, List.range_eq_range']
  exact submitEventsFrom_closed n interval n 0 (by omega)

theorem submitIds_flatMap (n : Nat) (interval : ℚ) (L : List Nat) :
    submitIds (L.flatMap (dispatchBlock n interval)) = L := by
  induction L with
  | nil => rfl
  | cons j rest ih =>
      rw [List.flatMap_cons]
      unfold submitIds at ih ⊢
      rw [List.filterMap_append, ih]
      by_cases hc : (j + 1) % 10 = 0 ∨ j + 1 = n <;>
        simp [dispatchBlock, hc, List.filterMap_cons]

theorem progressMarks_flatMap (n : Nat) (interval : ℚ) (L : List Nat) :
    progressMarks (L.flatMap (dispatchBlock n interval)) =
      (L.filter (fun j => decide ((j + 1) % 10 = 0 ∨ j + 1 = n))).map
        (fun j => (j + 1, n)) := by
  induction L with
  | nil => rfl
  | cons j rest ih =>
      rw [List.flatMap_cons]
      unfold progressMarks at ih ⊢
      rw [List.filterMap_append, ih]
      by_cases hc : (j + 1) % 10 = 0 ∨ j + 1 = n <;>
        simp [dispatchBlock, hc, List.filterMap_cons, List.filter_cons]

theorem sleep_after_submit_flatMap (n : Nat) (interval : ℚ) :
    ∀ (L : List Nat) (k id : Nat),
    (L.flatMap (dispatchBlock n interval)).get? k =
        some (Event.submit id) →
    (L.flatMap (dispatchBlock n interval)).get? (k + 1) =
        some (Event.sleep interval) := by
  intro L
  induction L with
  | nil =>
      intro k id hk
      simp at hk
  | cons j rest ih =>
      intro k id hk
      rw [List.flatMap_cons] at hk ⊢
      by_cases hc : (j + 1) % 10 = 0 ∨ j + 1 = n
      · have hblock : dispatchBlock n interval j =
            [Event.submit j, Event.sleep interval,
             Event.progress (j + 1) n] := by
          simp [dispatchBlock, hc]
        rw [hblock] at hk ⊢
        match k with
        | 0 => rfl
        | 1 => exact absurd hk (by simp)
        | 2 => exact absurd hk (by simp)
        | (m + 3) =>
            show (rest.flatMap (dispatchBlock n interval)).get? (m + 1) = _
            exact ih m id hk
      · have hblock : dispatchBlock n interval j =
            [Event.submit j, Event.sleep interval] := by
          simp [dispatchBlock, hc]
        rw [hblock] at hk ⊢
        match k with
        | 0 => rfl
        | 1 => exact absurd hk (by simp)
        | (m + 2) =>
            show (rest.flatMap (dispatchBlock n interval)).get? (m + 1) = _
            exact ih m id hk

/-- C8: the dispatch loop submits exactly one task per id `0..n-1` in
ascending order; every submit event is immediately followed by a sleep of
`interval` seconds; the progress line `submitted/total` is emitted for
exactly the 10th, 20th, ... and the final submission; and the run's wait
barrier completes every submitted task, each contributing one recorded
outcome, before the run returns. -/
theorem C8_dispatch_loop (t : LoadTester) (env : Nat → HttpResult)
    (order : List Nat) (startT endT : ℚ)
    (hperm : order.Perm (List.range t.num_requests)) :
    submitIds (run t env order startT endT).trace =
        List.range t.num_requests
    ∧ (∀ k id, (run t env order startT endT).trace.get? k =
          some (Event.submit id) →
        (run t env order startT endT).trace.get? (k + 1) =
          some (Event.sleep t.interval))
    ∧ progressMarks (run t env order startT endT).trace =
        ((List.range t.num_requests).filter
          (fun i => decide ((i + 1) % 10 = 0 ∨ i + 1 = t.num_requests))).map
          (fun i => (i + 1, t.num_requests))
    ∧ totalOutcomes (run t env order startT endT).final =
        totalOutcomes t + t.num_requests := by
  have htr : (run t env order startT endT).trace =
      submitEvents t.num_requests t.interval := rfl
  refine ⟨?_, ?_, ?_, ?_⟩
  · rw [htr, submitEvents_closed, submitIds_flatMap]
  · intro k id hk
    rw [htr, submitEvents_closed] at hk ⊢
    exact sleep_after_submit_flatMap t.num_requests t.interval
      (List.range t.num_requests) k id hk
  · rw [htr, submitEvents_closed, progressMarks_flatMap]
  · unfold totalOutcomes
    rw [run_final_response_times, run_final_errors, List.length_append,
      List.length_append]
    have h1 := successTimes_length_add_failMsgs_length env order
    have h2 : order.length = t.num_requests := by
      rw [hperm.length_eq, List.length_range]
    omega

/-- Witness for C8: a concrete 3-request run submits ids `[0, 1, 2]`,
sleeps right after the first submission, emits exactly the final
progress line `3/3`, and records 3 outcomes. -/
theorem C8_dispatch_loop_witness :
    submitIds (run (LoadTester.init "u" 2 3 0)
        (fun _ => .response 200 1) [2, 0, 1] 0 5).trace = [0, 1, 2]
    ∧ (run (LoadTester.init "u" 2 3 0)
        (fun _ => .response 200 1) [2, 0, 1] 0 5).trace.get? 1 =
        some (Event.sleep 0)
    ∧ progressMarks (run (LoadTester.init "u" 2 3 0)
        (fun _ => .response 200 1) [2, 0, 1] 0 5).trace = [(3, 3)]
    ∧ totalOutcomes (run (LoadTester.init "u" 2 3 0)
        (fun _ => .response 200 1) [2, 0, 1] 0 5).final = 3 := by
  have h := C8_dispatch_loop (LoadTester.init "u" 2 3 0)
    (fun _ => .response 200 1) [2, 0, 1] 0 5 (by decide)
  refine ⟨?_, ?_, ?_, ?_⟩
  · rw [h.1]; decide
  · have h0 : (run (LoadTester.init "u" 2 3 0)
        (fun _ => .response 200 1) [2, 0, 1] 0 5).trace.get? 0 =
        some (Event.submit 0) := by
      have htr : (run (LoadTester.init "u" 2 3 0)
          (fun _ => .response 200 1) [2, 0, 1] 0 5).trace =
          submitEvents 3 0 := rfl
      rw [htr, submitEvents_closed]
      decide
    exact h.2.1 0 0 h0
  · rw [h.2.2.1]; decide
  · rw [h.2.2.2]; decide

/-! ## Sorting lemmas -/

theorem insertByKeyAsc_perm (p : Nat × Nat) (l : List (Nat × Nat)) :
    (insertByKeyAsc p l).Perm (p :: l) := by
  induction l with
  | nil => rfl
  | cons q qs ih =>
      rw [insertByKeyAsc]
      by_cases hq : q.1 < p.1
      · rw [if_pos hq]
        exact ((ih.cons q).trans (List.Perm.swap p q qs)).symm.symm
      · rw [if_neg hq]

theorem sortByKeyAsc_perm (l : List (Nat × Nat)) :
    (sortByKeyAsc l).Perm l := by
  induction l with
  | nil => rfl
  | cons q qs ih =>
      exact (insertByKeyAsc_perm q (sortByKeyAsc qs)).trans (ih.cons q)

theorem insertByKeyAsc_pairwise (p : Nat × Nat) (l : List (Nat × Nat))
    (hl : l.Pairwise (fun a b => a.1 ≤ b.1)) :
    (insertByKeyAsc p l).Pairwise (fun a b => a.1 ≤ b.1) := by
  induction l with
  | nil => simp [insertByKeyAsc]
  | cons q qs ih =>
      rw [List.pairwise_cons] at hl
      rw [insertByKeyAsc]
      by_cases hq : q.1 < p.1
      · rw [if_pos hq, List.pairwise_cons]
        constructor
        · intro r hr
          rcases List.mem_cons.mp
              ((insertByKeyAsc_perm p qs).mem_iff.mp hr) with rfl | h
          · exact Nat.le_of_lt hq
          · exact hl.1 r h
        · exact ih hl.2
      · rw [if_neg hq, List.pairwise_cons]
        constructor
        · intro r hr
          rcases List.mem_cons.mp hr with rfl | h
          · exact Nat.le_of_not_lt hq
          · exact Nat.le_trans (Nat.le_of_not_lt hq) (hl.1 r h)
        · exact List.pairwise_cons.mpr hl

theorem sortByKeyAsc_pairwise (l : List (Nat × Nat)) :
    (sortByKeyAsc l).Pairwise (fun a b => a.1 ≤ b.1) := by
  induction l with
  | nil => simp [sortByKeyAsc]
  | cons q qs ih => exact insertByKeyAsc_pairwise q (sortByKeyAsc qs) ih

theorem sortByKeyAsc_pairwise_lt (l : List (Nat × Nat))
    (hnd : (l.map Prod.fst).Nodup) :
    (sortByKeyAsc l).Pairwise (fun a b => a.1 < b.1) := by
  have hnd2 : ((sortByKeyAsc l).map Prod.fst).Nodup :=
    (((sortByKeyAsc_perm l).map Prod.fst).nodup_iff).mpr hnd
  have hne : (sortByKeyAsc l).Pairwise (fun a b => a.1 ≠ b.1) :=
    List.pairwise_map.mp hnd2
  exact ((sortByKeyAsc_pairwise l).and hne).imp
    (fun h => Nat.lt_of_le_of_ne h.1 h.2)

theorem sum_map_pct (n : ℚ) (L : List (Nat × Nat)) :
    (L.map (fun p => (p.2 : ℚ) / n * 100)).sum =
      (sumCounts L : ℚ) / n * 100 := by
  induction L with
  | nil => simp [sumCounts]
  | cons p rest ih =>
      simp only [List.map_cons, List.sum_cons, ih, sumCounts]
      push_cast
      ring

theorem sumCounts_perm {α : Type} (l l' : List (α × Nat))
    (h : l.Perm l') : sumCounts l = sumCounts l' := by
  unfold sumCounts
  exact (h.map Prod.snd).sum_eq

/-- C6: in every completed run's report with at least one success, the
status-code lines list exactly the distinct observed status codes in
strictly ascending code order, each with its occurrence count and the
percentage `count / num_requests * 100` of the configured total; hence
the percentages sum to `successfulCount / num_requests * 100`. -/
theorem C6_status_distribution (url : String) (num_threads n : Nat)
    (interval : ℚ) (env : Nat → HttpResult) (order : List Nat)
    (startT endT : ℚ)
    (hne : (run (LoadTester.init url num_threads n interval) env order
        startT endT).final.response_times ≠ []) :
    (statusLines (run (LoadTester.init url num_threads n interval) env
        order startT endT).report).Pairwise (fun p q => p.1 < q.1)
    ∧ (∀ code cnt pct,
        (code, cnt, pct) ∈ statusLines (run (LoadTester.init url
            num_threads n interval) env order startT endT).report →
        cnt = (successCodes env order).count code
        ∧ pct = (cnt : ℚ) / n * 100)
    ∧ (∀ code, (∃ cnt pct,
        (code, cnt, pct) ∈ statusLines (run (LoadTester.init url
            num_threads n interval) env order startT endT).report) ↔
        code ∈ successCodes env order)
    ∧ ((statusLines (run (LoadTester.init url num_threads n interval) env
        order startT endT).report).map (fun p => p.2.2)).sum =
        ((run (LoadTester.init url num_threads n interval) env order
          startT endT).final.response_times.length : ℚ) / n * 100 := by
  have hnr : (run (LoadTester.init url num_threads n interval) env order
      startT endT).final.num_requests = n := by
    rw [run_final_num_requests]
    rfl
  have hSC : (run (LoadTester.init url num_threads n interval) env order
      startT endT).final.status_codes =
      countsFold [] (successCodes env order) := by
    rw [run_final_status_codes]
    rfl
  have hSL : statusLines (run (LoadTester.init url num_threads n interval)
      env order startT endT).report =
      (sortByKeyAsc (countsFold [] (successCodes env order))).map
        (fun p => (p.1, p.2, (p.2 : ℚ) / n * 100)) := by
    rw [run_report, statusLines_print_results _ hne, hSC, hnr]
  have hndM : ((countsFold [] (successCodes env order)).map
      Prod.fst).Nodup :=
    keys_nodup_countsFold (successCodes env order) [] (by simp)
  have hp : (sortByKeyAsc (countsFold [] (successCodes env order))).Perm
      (countsFold [] (successCodes env order)) := sortByKeyAsc_perm _
  have hlook : ∀ k, lookCount k (countsFold [] (successCodes env order))
      = (successCodes env order).count k := by
    intro k
    rw [lookCount_countsFold]
    simp [lookCount]
  have hkeys : ∀ a, a ∈ (countsFold [] (successCodes env order)).map
      Prod.fst ↔ a ∈ successCodes env order := by
    intro a
    rw [keys_mem_countsFold]
    simp
  refine ⟨?_, ?_, ?_, ?_⟩
  · rw [hSL]
    exact List.pairwise_map.mpr
      ((sortByKeyAsc_pairwise_lt _ hndM).imp (fun h => h))
  · intro code cnt pct hmem
    rw [hSL] at hmem
    obtain ⟨p, hpmem, hpe⟩ := List.mem_map.mp hmem
    obtain ⟨h1, h2, h3⟩ : p.1 = code ∧ p.2 = cnt ∧
        (p.2 : ℚ) / n * 100 = pct := by
      refine ⟨congrArg (fun x => x.1) hpe, ?_, ?_⟩
      · exact congrArg (fun x => x.2.1) hpe
      · exact congrArg (fun x => x.2.2) hpe
    have hpM : p ∈ countsFold [] (successCodes env order) :=
      hp.mem_iff.mp hpmem
    have : (code, cnt) ∈ countsFold [] (successCodes env order) := by
      rw [← h1, ← h2]
      exact hpM
    have hcnt := ((mem_of_nodup_keys _ hndM code cnt).mp this).2
    rw [hlook code] at hcnt
    refine ⟨hcnt, ?_⟩
    rw [← h3, h2]
  · intro code
    constructor
    · rintro ⟨cnt, pct, hmem⟩
      rw [hSL] at hmem
      obtain ⟨p, hpmem, hpe⟩ := List.mem_map.mp hmem
      have h1 : p.1 = code := congrArg (fun x => x.1) hpe
      have hpM : p ∈ countsFold [] (successCodes env order) :=
        hp.mem_iff.mp hpmem
      have : code ∈ (countsFold [] (successCodes env order)).map
          Prod.fst := by
        rw [← h1]
        exact List.mem_map_of_mem Prod.fst hpM
      exact (hkeys code).mp this
    · intro hobs
      have hk : code ∈ (countsFold [] (successCodes env order)).map
          Prod.fst := (hkeys code).mpr hobs
      have hmemM : (code, lookCount code
          (countsFold [] (successCodes env order))) ∈
          countsFold [] (successCodes env order) :=
        (mem_of_nodup_keys _ hndM code _).mpr ⟨hk, rfl⟩
      have hs : (code, lookCount code
          (countsFold [] (successCodes env order))) ∈
          sortByKeyAsc (countsFold [] (successCodes env order)) :=
        hp.mem_iff.mpr hmemM
      refine ⟨lookCount code (countsFold [] (successCodes env order)),
        (lookCount code (countsFold [] (successCodes env order)) : ℚ)
          / n * 100, ?_⟩
      rw [hSL]
      exact List.mem_map_of_mem _ hs
  · rw [hSL, List.map_map]
    have hsum : ((sortByKeyAsc (countsFold [] (successCodes env
        order))).map (fun p => (p.2 : ℚ) / n * 100)).sum =
        (sumCounts (sortByKeyAsc (countsFold [] (successCodes env
          order))) : ℚ) / n * 100 := sum_map_pct n _
    have hcomp : ((fun p : Nat × Nat × ℚ => p.2.2) ∘
        (fun p : Nat × Nat => (p.1, p.2, (p.2 : ℚ) / n * 100))) =
        (fun p : Nat × Nat => (p.2 : ℚ) / n * 100) := rfl
    rw [hcomp, hsum, sumCounts_perm _ _ hp, sumCounts_countsFold,
      run_final_response_times]
    have hlen : ((LoadTester.init url num_threads n
        interval).response_times ++ successTimes env order).length =
        (successCodes env order).length := by
      rw [List.length_append, successCodes_length_eq]
      simp [LoadTester.init]
    rw [hlen]
    show ((sumCounts ([] : List (Nat × Nat)) +
        (successCodes env order).length : Nat) : ℚ) / n * 100 = _
    norm_num [sumCounts]

/-- Witness for C6: in a concrete run with successes 200 and 404 out of 3
configured requests, the status percentages sum to `2/3 * 100`. -/
theorem C6_status_distribution_witness :
    ((statusLines (run (LoadTester.init "u" 2 3 0) mixedEnv [2, 0, 1]
        0 5).report).map (fun p => p.2.2)).sum = (2 : ℚ) / 3 * 100
    ∧ (∃ cnt pct, (404, cnt, pct) ∈ statusLines
        (run (LoadTester.init "u" 2 3 0) mixedEnv [2, 0, 1] 0 5).report) := by
  have h := C6_status_distribution "u" 2 3 0 mixedEnv [2, 0, 1] 0 5
    (by decide)
  constructor
  · rw [h.2.2.2]
    have hlen : (run (LoadTester.init "u" 2 3 0) mixedEnv [2, 0, 1]
        0 5).final.response_times.length = 2 := by decide
    rw [hlen]
    norm_num
  · exact (h.2.2.1 404).mpr (by decide)

theorem insertByCountDesc_perm {α : Type} (p : α × Nat)
    (l : List (α × Nat)) : (insertByCountDesc p l).Perm (p :: l) := by
  induction l with
  | nil => rfl
  | cons q qs ih =>
      rw [insertByCountDesc]
      by_cases hq : p.2 < q.2
      · rw [if_pos hq]
        exact (ih.cons q).trans (List.Perm.swap p q qs)
      · rw [if_neg hq]

theorem sortByCountDesc_perm {α : Type} (l : List (α × Nat)) :
    (sortByCountDesc l).Perm l := by
  induction l with
  | nil => rfl
  | cons q qs ih =>
      exact (insertByCountDesc_perm q (sortByCountDesc qs)).trans (ih.cons q)

theorem insertByCountDesc_pairwise {α : Type}
    (R : α × Nat → α × Nat → Prop) (p : α × Nat) (l : List (α × Nat))
    (hl : l.Pairwise (fun a b => b.2 < a.2 ∨ (a.2 = b.2 ∧ R a b)))
    (hp : ∀ q ∈ l, p.2 = q.2 → R p q) :
    (insertByCountDesc p l).Pairwise
      (fun a b => b.2 < a.2 ∨ (a.2 = b.2 ∧ R a b)) := by
  induction l with
  | nil => simp [insertByCountDesc]
  | cons q qs ih =>
      rw [List.pairwise_cons] at hl
      rw [insertByCountDesc]
      by_cases hq : p.2 < q.2
      · rw [if_pos hq, List.pairwise_cons]
        constructor
        · intro r hr
          rcases List.mem_cons.mp
              ((insertByCountDesc_perm p qs).mem_iff.mp hr) with rfl | h
          · exact Or.inl hq
          · exact hl.1 r h
        · exact ih hl.2 (fun r hr he => hp r (List.mem_cons_of_mem q hr) he)
      · rw [if_neg hq, List.pairwise_cons]
        have hqle : q.2 ≤ p.2 := Nat.le_of_not_lt hq
        constructor
        · intro r hr
          rcases List.mem_cons.mp hr with rfl | h
          · rcases Nat.lt_or_ge r.2 p.2 with hlt | hge
            · exact Or.inl hlt
            · have he : p.2 = r.2 := Nat.le_antisymm hge hqle
              exact Or.inr ⟨he, hp r (List.mem_cons_self _ _) he⟩
          · have hrq : r.2 ≤ q.2 := by
              rcases hl.1 r h with h1 | h1
              · exact Nat.le_of_lt h1
              · exact Nat.le_of_eq h1.1.symm
            rcases Nat.lt_or_ge r.2 p.2 with hlt | hge
            · exact Or.inl hlt
            · have he : p.2 = r.2 := Nat.le_antisymm hge
                (Nat.le_trans hrq hqle)
              exact Or.inr ⟨he, hp r (List.mem_cons_of_mem q h) he⟩
        · exact List.pairwise_cons.mpr hl

theorem sortByCountDesc_pairwise {α : Type}
    (R : α × Nat → α × Nat → Prop) (l : List (α × Nat))
    (hl : l.Pairwise R) :
    (sortByCountDesc l).Pairwise
      (fun a b => b.2 < a.2 ∨ (a.2 = b.2 ∧ R a b)) := by
  induction l with
  | nil => simp [sortByCountDesc]
  | cons q qs ih =>
      rw [List.pairwise_cons] at hl
      refine insertByCountDesc_pairwise R q (sortByCountDesc qs)
        (ih hl.2) ?_
      intro r hr _
      exact hl.1 r ((sortByCountDesc_perm qs).mem_iff.mp hr)

theorem countsFold_keys_pairwise {α : Type} [DecidableEq α] :
    ∀ (suffix p : List α) (m : List (α × Nat)),
    (∀ a, a ∈ m.map Prod.fst ↔ a ∈ p) →
    (m.map Prod.fst).Pairwise
      (fun a b => (p ++ suffix).indexOf a < (p ++ suffix).indexOf b) →
    ((countsFold m suffix).map Prod.fst).Pairwise
      (fun a b => (p ++ suffix).indexOf a < (p ++ suffix).indexOf b) := by
  intro suffix
  induction suffix with
  | nil =>
      intro p m hkeys hpair
      exact hpair
  | cons e s ih =>
      intro p m hkeys hpair
      rw [countsFold_cons]
      have hkeys' : ∀ a, a ∈ (bumpCount e m).map Prod.fst ↔
          a ∈ p ++ [e] := by
        intro a
        rw [keys_bumpCount]
        by_cases hem : e ∈ m.map Prod.fst
        · rw [if_pos hem]
          rw [hkeys a, List.mem_append, List.mem_singleton]
          constructor
          · exact Or.inl
          · rintro (h | rfl)
            · exact h
            · exact (hkeys a).mp hem
        · rw [if_neg hem]
          simp only [List.mem_append, List.mem_singleton, hkeys a]
      have hpair' : ((bumpCount e m).map Prod.fst).Pairwise
          (fun a b => ((p ++ [e]) ++ s).indexOf a <
            ((p ++ [e]) ++ s).indexOf b) := by
        have hlist : (p ++ [e]) ++ s = p ++ e :: s := by simp
        rw [hlist, keys_bumpCount]
        by_cases hem : e ∈ m.map Prod.fst
        · rw [if_pos hem]
          exact hpair
        · rw [if_neg hem]
          rw [List.pairwise_append]
          refine ⟨hpair, List.pairwise_singleton _ _, ?_⟩
          intro a ha b hb
          rw [List.mem_singleton] at hb
          rw [hb]
          have hap : a ∈ p := (hkeys a).mp ha
          have hep : e ∉ p := fun hc => hem ((hkeys e).mpr hc)
          rw [List.indexOf_append_of_mem hap,
            List.indexOf_append_of_not_mem hep, List.indexOf_cons_self]
          have := List.indexOf_lt_length.mpr hap
          omega
      have := ih (p ++ [e]) (bumpCount e m) hkeys' hpair'
      have hlist : (p ++ [e]) ++ s = p ++ e :: s := by simp
      rw [hlist] at this
      exact this

theorem errorCounts_eq_countsFold (es : List String) :
    errorCounts es = countsFold [] es := rfl

theorem errorCounts_pairwise_indexOf (es : List String) :
    (errorCounts es).Pairwise
      (fun a b => es.indexOf a.1 < es.indexOf b.1) := by
  have h := countsFold_keys_pairwise es [] []
    (by intro a; simp) (by simp)
  rw [List.nil_append] at h
  rw [errorCounts_eq_countsFold]
  exact List.Pairwise.of_map Prod.fst (fun a b hab => hab) h

theorem errorCounts_keys_nodup (es : List String) :
    ((errorCounts es).map Prod.fst).Nodup := by
  rw [errorCounts_eq_countsFold]
  exact keys_nodup_countsFold es [] (by simp)

theorem errorCounts_mem (es : List String) (m : String) (k : Nat) :
    (m, k) ∈ errorCounts es ↔ m ∈ es ∧ k = es.count m := by
  rw [errorCounts_eq_countsFold]
  rw [mem_of_nodup_keys _ (keys_nodup_countsFold es [] (by simp)) m k]
  rw [keys_mem_countsFold, lookCount_countsFold]
  simp [lookCount]

/-- C7 counterexample: in the run state `tiedErrorsState` the two error
messages `"b"` and `"a"` are tied at count 1, yet the report lists
`"b"` before `"a"` even though `"a" < "b"` lexically — the claimed
lexical tie-break does not hold; ties follow first-occurrence order. -/
theorem C7_lexical_tiebreak_counterexample :
    errorLines (print_results tiedErrorsState) = [("b", 1), ("a", 1)]
    ∧ ("a" : String) < "b"
    ∧ tiedErrorsState.errors.count "a" =
        tiedErrorsState.errors.count "b" := by
  refine ⟨by decide, ?_, by decide⟩
  rw [String.lt_iff_toList_lt]
  decide

/-- C7 (amended): for every report with at least one success, the error
lines are sorted by count descending, with ties between equal counts
broken by the order of first occurrence of the message in the error
collection (Python's `sorted` is stable and the counts dict lists
messages in first-occurrence order); each distinct recorded error
message appears with its occurrence count. -/
theorem C7_error_distribution (t : LoadTester)
    (hne : t.response_times ≠ []) :
    (errorLines (print_results t)).Pairwise
      (fun a b => b.2 < a.2 ∨ (a.2 = b.2 ∧
        t.errors.indexOf a.1 < t.errors.indexOf b.1))
    ∧ ∀ m k, (m, k) ∈ errorLines (print_results t) ↔
        m ∈ t.errors ∧ k = t.errors.count m := by
  rw [errorLines_print_results t hne]
  constructor
  · exact sortByCountDesc_pairwise _ (errorCounts t.errors)
      (errorCounts_pairwise_indexOf t.errors)
  · intro m k
    rw [(sortByCountDesc_perm (errorCounts t.errors)).mem_iff]
    exact errorCounts_mem t.errors m k

/-- Witness for C7 (amended) on `tiedErrorsState`: both tied messages are
listed with count 1, and an unrecorded message is absent. -/
theorem C7_error_distribution_witness :
    ("b", 1) ∈ errorLines (print_results tiedErrorsState)
    ∧ ("a", 1) ∈ errorLines (print_results tiedErrorsState)
    ∧ ¬ ("c", 1) ∈ errorLines (print_results tiedErrorsState) := by
  have h := C7_error_distribution tiedErrorsState (by decide)
  refine ⟨(h.2 "b" 1).mpr (by decide), (h.2 "a" 1).mpr (by decide), ?_⟩
  intro hc
  have := (h.2 "c" 1).mp hc
  revert this
  decide
